import Mathlib

/-!
Verification development for the loki-prometheus-extractor transformation
pipeline: field extraction, filtering and aggregation over timestamped
records.  JavaScript numbers are modelled as rationals (`ℚ`); `NaN` and
`undefined` are modelled explicitly; mappings (JS objects) are modelled as
insertion-ordered association lists.  External library calls (RegExp,
date-fns formatting, `new Date(string)`) are modelled as explicit functional
parameters bundled in `Externals`, so every theorem holds for every behavior
of those libraries.
-/

namespace LokiExtractor

attribute [local semireducible] Rat.add Rat.mul Rat.inv Rat.sub Rat.ofScientific

/-- Model of a runtime JavaScript value as it flows through the pipeline:
numbers (as rationals), `NaN`, strings, booleans, `null`, `undefined`,
`Date` objects (their epoch-milliseconds time value, `none` for an invalid
date) and object/array composites. -/
inductive Value where
  | num (q : ℚ)
  | nan
  | str (s : String)
  | bool (b : Bool)
  | null
  | undef
  | date (ms : Option ℚ)
  | obj (fields : List (String × Value))
  | arr (elems : List Value)

/-- Lookup in a JS object modelled as an association list (first binding
wins; JS objects have unique keys, preserved by `setKey`). -/
def getKey {α : Type} : List (String × α) → String → Option α
  | [], _ => none
  | p :: rest, k => if p.1 = k then some p.2 else getKey rest k

/-- Key-presence test, modelling the JS `in` operator on plain objects. -/
def hasKeyB {α : Type} (m : List (String × α)) (k : String) : Bool :=
  m.any (fun p => p.1 = k)

/-- Model of the JS assignment `obj[k] = v`: replace in place when the key
exists, append otherwise. -/
def setKey {α : Type} (m : List (String × α)) (k : String) (v : α) :
    List (String × α) :=
  if hasKeyB m k then m.map (fun p => if p.1 = k then (k, v) else p)
  else m ++ [(k, v)]

/-- Model of the JS object spread `\x7b ...a, ...b \x7d`: keys of `a` in
order, overridden by `b`, with fresh keys of `b` appended in order. -/
def mergeMaps {α : Type} (a b : List (String × α)) : List (String × α) :=
  b.foldl (fun acc p => setKey acc p.1 p.2) a

/-- JS truthiness of a value. -/
def truthy : Value → Bool
  | .num q => q ≠ 0
  | .nan => false
  | .str s => s ≠ ""
  | .bool b => b
  | .null => false
  | .undef => false
  | .date _ => true
  | .obj _ => true
  | .arr _ => true

/-- Result of the JS `typeof` operator on a modelled value. -/
def jsTypeof : Value → String
  | .num _ => "number"
  | .nan => "number"
  | .str _ => "string"
  | .bool _ => "boolean"
  | .null => "object"
  | .undef => "undefined"
  | .date _ => "object"
  | .obj _ => "object"
  | .arr _ => "object"

/-- Decimal rendering of a rational with denominator one; non-integral
numbers are rendered as a fraction.  No claim below depends on the exact
rendering of non-integral numbers, dates, arrays or objects. -/
def ratToString (q : ℚ) : String :=
  if q.den = 1 then toString q.num
  else toString q.num ++ "/" ++ toString q.den

/-- Model of JS `String(v)` / template-literal coercion. -/
def jsToString : Value → String
  | .num q => ratToString q
  | .nan => "NaN"
  | .str s => s
  | .bool b => if b then "true" else "false"
  | .null => "null"
  | .undef => "undefined"
  | .date _ => "[object Date]"
  | .obj _ => "[object Object]"
  | .arr _ => "[array]"

/-- Model of JS `String.prototype.startsWith` (character-list based so that
it evaluates by kernel reduction). -/
def strStartsWith (s pre : String) : Bool :=
  pre.data.isPrefixOf s.data

/-- Model of JS `String.prototype.endsWith`. -/
def strEndsWith (s suf : String) : Bool :=
  suf.data.reverse.isPrefixOf s.data.reverse

/-- Model of JS `String.prototype.toLowerCase` (ASCII case mapping). -/
def strToLower (s : String) : String :=
  String.mk (s.data.map Char.toLower)

/-- Model of JS `String.prototype.toUpperCase` (ASCII case mapping). -/
def strToUpper (s : String) : String :=
  String.mk (s.data.map Char.toUpper)

/-- Whitespace characters skipped by JS numeric parsing. -/
def jsWhitespace (c : Char) : Bool :=
  c == ' ' || c == Char.ofNat 9 || c == Char.ofNat 10 || c == Char.ofNat 13

/-- Model of JS `String.prototype.trim` (whitespace at both ends). -/
def strTrim (s : String) : String :=
  String.mk
    (s.data.dropWhile jsWhitespace |>.reverse.dropWhile jsWhitespace
      |>.reverse)

/-- Substring search over character lists. -/
def containsSub : List Char → List Char → Bool
  | [], pat => pat.isEmpty
  | c :: rest, pat => pat.isPrefixOf (c :: rest) || containsSub rest pat

/-- Model of JS `String.prototype.includes`. -/
def strIncludes (s pat : String) : Bool :=
  if pat = "" then true else containsSub s.data pat.data

/-- Splitting loop for `strSplitOn`, consuming one character at a time and
cutting at every (non-overlapping, leftmost) occurrence of the (nonempty)
separator; fuel-structural so it evaluates by kernel reduction (the fuel,
instantiated with the string length, always suffices because every step
consumes at least one character). -/
def splitOnFuel (sep : List Char) : Nat → List Char → List Char →
    List (List Char)
  | _, [], acc => [acc.reverse]
  | 0, cs, acc => [acc.reverse ++ cs]
  | fuel + 1, c :: rest, acc =>
    if sep.isPrefixOf (c :: rest) then
      acc.reverse :: splitOnFuel sep fuel ((c :: rest).drop sep.length) []
    else splitOnFuel sep fuel rest (c :: acc)

/-- Model of JS `String.prototype.split` with a string separator (for an
empty separator the source never takes that path; it is mapped to the
singleton split, as in Lean's `splitOn`). -/
def strSplitOn (s sep : String) : List String :=
  if sep.data = [] then [s]
  else (splitOnFuel sep.data s.data.length s.data []).map String.mk

/-- Numeric value of a list of decimal digit characters. -/
def digitsToNat (cs : List Char) : Nat :=
  cs.foldl (fun n c => 10 * n + (c.toNat - 48)) 0

/-- Parse an unsigned decimal literal (integer part, optional fraction)
from a character list, returning the value and the remaining characters.
Model of the decimal core shared by `parseFloat` and `Number`; exponent and
hexadecimal notation are outside the rational model. -/
def parseDecCore (cs : List Char) : Option (ℚ × List Char) :=
  let intPart := cs.takeWhile Char.isDigit
  let rest1 := cs.dropWhile Char.isDigit
  match rest1 with
  | c :: rest2 =>
    if c == Char.ofNat 46 then
      let fracPart := rest2.takeWhile Char.isDigit
      let rest3 := rest2.dropWhile Char.isDigit
      if intPart.isEmpty && fracPart.isEmpty then none
      else some ((digitsToNat intPart : ℚ) +
        (digitsToNat fracPart : ℚ) / (10 : ℚ) ^ fracPart.length, rest3)
    else if intPart.isEmpty then none
    else some ((digitsToNat intPart : ℚ), rest1)
  | [] => if intPart.isEmpty then none else some ((digitsToNat intPart : ℚ), [])

/-- Parse an optionally signed decimal literal. -/
def parseSigned (cs : List Char) : Option (ℚ × List Char) :=
  match cs with
  | c :: rest =>
    if c == Char.ofNat 45 then (parseDecCore rest).map (fun p => (-p.1, p.2))
    else if c == Char.ofNat 43 then parseDecCore rest
    else parseDecCore cs
  | [] => none

/-- Model of the JS builtin `parseFloat`: skip leading whitespace, read the
longest signed-decimal prefix, `NaN` (here `none`) when no digits are
found. -/
def parseFloatQ (s : String) : Option ℚ :=
  (parseSigned (s.data.dropWhile jsWhitespace)).map Prod.fst

/-- Model of JS `Number(string)`: the trimmed string must be empty (giving
zero) or a complete signed-decimal literal, otherwise `NaN` (`none`). -/
def jsNumberOfString (s : String) : Option ℚ :=
  let t := s.data.dropWhile jsWhitespace |>.reverse.dropWhile jsWhitespace |>.reverse
  if t.isEmpty then some (0 : ℚ)
  else match parseSigned t with
    | some (q, []) => some q
    | _ => none

/-- Model of JS `Number(v)` coercion (`none` models `NaN`).  Arrays are
coerced via their joined string form in JS; that case is modelled as `NaN`
and no claim depends on it. -/
def jsNumber : Value → Option ℚ
  | .num q => some q
  | .nan => none
  | .str s => jsNumberOfString s
  | .bool b => some (if b then 1 else 0)
  | .null => some 0
  | .undef => none
  | .date ms => ms
  | .obj _ => none
  | .arr _ => none

/-- Bundle of the external library functions used by the pipeline, passed
explicitly so theorems hold for every behavior of those libraries:
`rx pattern caseSensitive s` models the guarded `RegExp(pattern).test(s)`
call (its try/catch already folds a compile failure into `false`);
`fd ms fmt` models date-fns `format(new Date(ms), fmt)`;
`dfmt v fmt` models date-fns `format(v, fmt)` on an arbitrary value, which
may throw; `parseDateStr s` models `new Date(s).getTime()` with `none` for
an invalid date. -/
structure Externals where
  rx : String → Bool → String → Bool
  fd : ℚ → String → String
  dfmt : Value → String → Except Unit String
  parseDateStr : String → Option ℚ

/-- Record flowing through the pipeline (`QueryResult` in the source). -/
structure QueryResult where
  timestamp : Int
  value : Value
  labels : List (String × Value)
  metadata : List (String × Value)

/-- Extraction rule (`FieldExtraction` in the source). -/
structure FieldExtraction where
  name : String
  path : String
  type : Option String := none
  format : Option String := none
  transform : Option String := none

/-- Filter rule (`DataFilter` in the source). -/
structure DataFilter where
  field : String
  pattern : String
  mode : String
  type : String
  caseSensitive : Option Bool := none

/-- Group-by entry object (`GroupByConfig` in the source). -/
structure GroupByConfig where
  field : String
  dateFormat : Option String := none

/-- Group-by entry: plain field name or configuration object. -/
inductive GroupByItem where
  | fieldName (f : String)
  | cfg (c : GroupByConfig)

/-- Metric configuration (`MetricConfig` in the source). -/
structure MetricConfig where
  name : String
  field : Option String := none
  function : String
  percentile : Option ℚ := none

/-- Metric entry: legacy plain string or configuration object. -/
inductive MetricItem where
  | legacy (s : String)
  | cfg (m : MetricConfig)

/-- Aggregation configuration (`AggregationConfig` in the source). -/
structure AggregationConfig where
  groupBy : Option (List GroupByItem) := none
  metrics : Option (List MetricItem) := none
  function : Option String := none
  interval : Option String := none
  percentile : Option ℚ := none

/-- Property read `v[k]` as performed by `extractNestedValue`: objects by
key, arrays by all-digit index (with the JS `length` property), everything
else absent. -/
def getProp : Value → String → Option Value
  | .obj fs, k => getKey fs k
  | .arr xs, k =>
    if k ≠ "" && k.data.all Char.isDigit then xs.get? (digitsToNat k.data)
    else if k = "length" then some (.num (xs.length : ℚ))
    else none
  | _, _ => none

/-- Key-presence test `k in v` for the value model. -/
def hasProp (v : Value) (k : String) : Bool :=
  match v with
  | .obj fs => hasKeyB fs k
  | .arr xs =>
    (k ≠ "" && k.data.all Char.isDigit && digitsToNat k.data < xs.length) ||
      k = "length"
  | _ => false

/-- Descent loop of `extractNestedValue` over the split path segments. -/
def nestedLoop : List String → Value → Option Value
  | [], v => some v
  | k :: ks, v =>
    if truthy v && jsTypeof v = "object" then
      match getProp v k with
      | some v2 => nestedLoop ks v2
      | none => none
    else none

/-- Embedding of `extractNestedValue` (json-utils): dotted-path traversal
over nested objects/arrays, absent (`none`, the JS `undefined`) as soon as
a segment fails to resolve. -/
def extractNestedValue (root : Value) (path : String) : Option Value :=
  if truthy root && jsTypeof root = "object" then
    nestedLoop (strSplitOn path (".")) root
  else none

/-- Skip JSON whitespace. -/
def skipWs (cs : List Char) : List Char :=
  cs.dropWhile jsWhitespace

/-- Parse the body of a JSON string literal (escape sequences are outside
this model; a backslash makes the parse fail, which only narrows the set of
strings `tryParseJSON` accepts). -/
def parseJsonString : List Char → Option (String × List Char)
  | [] => none
  | c :: rest =>
    if c == Char.ofNat 34 then some ("", rest)
    else if c == Char.ofNat 92 then none
    else match parseJsonString rest with
      | some (s, r) => some (String.mk (c :: s.data), r)
      | none => none

/-- Nonterminal selector for the JSON parser: a full value, the member
loop of an object, or the element loop of an array. -/
inductive JsonMode where
  | val
  | members (acc : List (String × Value)) (first : Bool)
  | elems (acc : List Value) (first : Bool)

/-- Fuel-indexed recursive-descent parser modelling the builtin
`JSON.parse` on the escape-free, exponent-free JSON fragment (sufficient
for every literal considered in this development).  A single function,
structurally recursive in the fuel, so it evaluates by kernel reduction. -/
def parseJson : Nat → JsonMode → List Char → Option (Value × List Char)
  | 0, _, _ => none
  | fuel + 1, .val, cs =>
    match skipWs cs with
    | [] => none
    | c :: rest =>
      if c == Char.ofNat 123 then parseJson fuel (.members [] true) rest
      else if c == Char.ofNat 91 then parseJson fuel (.elems [] true) rest
      else if c == Char.ofNat 34 then
        (parseJsonString rest).map (fun p => (Value.str p.1, p.2))
      else if (String.toList ("true")).isPrefixOf (c :: rest) then
        some (.bool true, rest.drop 3)
      else if (String.toList ("false")).isPrefixOf (c :: rest) then
        some (.bool false, rest.drop 4)
      else if (String.toList ("null")).isPrefixOf (c :: rest) then
        some (.null, rest.drop 3)
      else
        (parseSigned (c :: rest)).map (fun p => (Value.num p.1, p.2))
  | fuel + 1, .members acc first, cs =>
    match skipWs cs with
    | [] => none
    | c :: rest =>
      if c == Char.ofNat 125 && first && acc.isEmpty then some (.obj [], rest)
      else if c == Char.ofNat 34 then
        match parseJsonString rest with
        | none => none
        | some (k, r1) =>
          match skipWs r1 with
          | c2 :: r2 =>
            if c2 == Char.ofNat 58 then
              match parseJson fuel .val r2 with
              | none => none
              | some (v, r3) =>
                match skipWs r3 with
                | c3 :: r4 =>
                  if c3 == Char.ofNat 44 then
                    parseJson fuel (.members (setKey acc k v) false) r4
                  else if c3 == Char.ofNat 125 then
                    some (.obj (setKey acc k v), r4)
                  else none
                | [] => none
            else none
          | [] => none
      else none
  | fuel + 1, .elems acc first, cs =>
    match skipWs cs with
    | [] => none
    | c :: rest =>
      if c == Char.ofNat 93 && first && acc.isEmpty then some (.arr [], rest)
      else
        match parseJson fuel .val cs with
        | none => none
        | some (v, r1) =>
          match skipWs r1 with
          | c2 :: r2 =>
            if c2 == Char.ofNat 44 then
              parseJson fuel (.elems (acc ++ [v]) false) r2
            else if c2 == Char.ofNat 93 then some (.arr (acc ++ [v]), r2)
            else none
          | [] => none

/-- Embedding of `tryParseJSON` (json-utils): `JSON.parse` wrapped in a
try/catch that yields `null` — modelled as `none` — on failure.  The whole
input must be consumed. -/
def tryParseJSON (s : String) : Option Value :=
  match parseJson (s.length + 1) .val s.data with
  | some (v, rest) => if (skipWs rest).isEmpty then some v else none
  | none => none

/-- Timestamp-threshold constant `TIME_CONSTANTS.TIMESTAMP_THRESHOLD`
(app.constants), distinguishing seconds from milliseconds. -/
def TIMESTAMP_THRESHOLD : ℚ := 10 ^ 12

/-- Seconds-to-milliseconds multiplier `TIME_CONSTANTS.S_TO_MS_MULTIPLIER`
(app.constants). -/
def S_TO_MS_MULTIPLIER : ℚ := 1000

/-- Model of JS `Number.prototype.toFixed` on the rational model, rounding
to `d` decimal places and rendering with a decimal point. -/
def toFixedQ (q : ℚ) (d : Nat) : String :=
  let scaled : Int := round (q * (10 : ℚ) ^ d)
  let sign := if scaled < 0 then "-" else ""
  let a := toString scaled.natAbs
  if d = 0 then sign ++ a
  else
    let padded :=
      if a.length < d + 1 then
        String.mk (List.replicate (d + 1 - a.length) (Char.ofNat 48)) ++ a
      else a
    sign ++ padded.take (padded.length - d) ++ "." ++
      padded.drop (padded.length - d)

/-- Date-object test, modelling `instanceof Date`. -/
def isDate : Value → Bool
  | .date _ => true
  | _ => false

/-- Transform step of `formatFieldValue` (field-formatter): the `date`
transform converts a number to a `Date`, treating it as milliseconds when
strictly above `TIMESTAMP_THRESHOLD` and as seconds (scaled by 1000)
otherwise; `uppercase`/`lowercase`/`trim` stringify then transform. -/
def transformStep (ext : Externals) (value : Value)
    (field : FieldExtraction) : Value :=
  match field.transform with
  | none => value
  | some t =>
    if t = "date" then
      match value with
      | .num q =>
        .date (some (if q > TIMESTAMP_THRESHOLD then q
          else q * S_TO_MS_MULTIPLIER))
      | .str s => .date (ext.parseDateStr s)
      | v => v
    else if t = "uppercase" then .str (strToUpper (jsToString value))
    else if t = "lowercase" then .str (strToLower (jsToString value))
    else if t = "trim" then .str (strTrim (jsToString value))
    else value

/-- Format step of `formatFieldValue`; `some r` models an early `return r`
inside the `if (field.format)` block, `none` models falling through to the
type-coercion step. -/
def formatStep (ext : Externals) (transformedValue : Value)
    (field : FieldExtraction) : Option Value :=
  match field.format with
  | none => none
  | some fmt =>
    if fmt = "" then none
    else if field.transform = some ("date") || isDate transformedValue then
      match ext.dfmt transformedValue fmt with
      | .ok s => some (.str s)
      | .error _ => some transformedValue
    else
      match transformedValue with
      | .num q =>
        if strIncludes fmt (".") then
          some (.str (toFixedQ q ((((strSplitOn fmt (".")).getD 1 "").length))))
        else none
      | .nan =>
        if strIncludes fmt (".") then some (.str ("NaN")) else none
      | _ => none

/-- Type-coercion step of `formatFieldValue`. -/
def typeStep (transformedValue : Value) (field : FieldExtraction) : Value :=
  match field.type with
  | none => transformedValue
  | some t =>
    if t = "number" then
      match jsNumber transformedValue with
      | some q => .num q
      | none => .nan
    else if t = "string" then .str (jsToString transformedValue)
    else if t = "boolean" then
      match transformedValue with
      | .str s =>
        let lower := strToLower s
        .bool (lower = "true" || lower = "1" || lower = "yes" || lower = "on")
      | v => .bool (truthy v)
    else transformedValue

/-- Embedding of `formatFieldValue` (field-formatter): null/undefined
short-circuit, then transform, format (with early returns) and type
coercion. -/
def formatFieldValue (ext : Externals) (value : Value)
    (field : FieldExtraction) : Value :=
  match value with
  | .null => .null
  | .undef => .undef
  | v =>
    let transformedValue := transformStep ext v field
    match formatStep ext transformedValue field with
    | some r => r
    | none => typeStep transformedValue field

namespace FieldExtractor

/-- Embedding of `FieldExtractor.extractValue`: resolve a rule's path
against the labels (for a `labels.` prefix), the payload itself (literal
`value`), its `timestamp` property, or a nested path, then format. -/
def extractValue (ext : Externals) (data : Value) (field : FieldExtraction)
    (existingLabels : List (String × Value)) : Option Value :=
  let value : Option Value :=
    if strStartsWith field.path ("labels.") then
      getKey existingLabels (field.path.drop 7)
    else if field.path = "value" then
      if truthy data && jsTypeof data = "object" && hasProp data ("value") then
        getProp data ("value")
      else some data
    else if field.path = "timestamp" then getProp data ("timestamp")
    else extractNestedValue data field.path
  match value with
  | some v => some (formatFieldValue ext v field)
  | none => none

/-- Embedding of `FieldExtractor.extractFields`: parse a textual payload as
JSON when possible (a failed or falsy parse keeps the raw string), then
apply every rule, but only when the working data is a non-null object. -/
def extractFields (ext : Externals) (flds : List FieldExtraction)
    (value : Value) (existingLabels : List (String × Value)) :
    List (String × Value) :=
  if flds.isEmpty then []
  else
    let data :=
      match value with
      | .str s =>
        match tryParseJSON s with
        | some parsed => if truthy parsed then parsed else .str s
        | none => .str s
      | v => v
    if truthy data && jsTypeof data = "object" then
      flds.foldl (fun acc field =>
        match extractValue ext data field existingLabels with
        | some v => setKey acc field.name v
        | none => acc) []
    else []

/-- The payload `rawValue || result.value` handed to the extraction: an
absent or falsy `rawValue` falls back to the record's value. -/
def rawOrValue (result : QueryResult) (rawValue : Option Value) : Value :=
  match rawValue with
  | some v => if truthy v then v else result.value
  | none => result.value

/-- Embedding of `FieldExtractor.applyToQueryResult`: extract from
`rawValue || result.value`; on a non-empty extraction produce a new record
with merged labels and an `extractedFields` metadata entry, otherwise
return the record unchanged. -/
def applyToQueryResult (ext : Externals) (flds : List FieldExtraction)
    (result : QueryResult) (rawValue : Option Value) : QueryResult :=
  let extractedFields :=
    extractFields ext flds (rawOrValue result rawValue) result.labels
  if extractedFields.length > 0 then
    { result with
      labels := mergeMaps result.labels extractedFields,
      metadata :=
        setKey result.metadata ("extractedFields") (.obj extractedFields) }
  else result

end FieldExtractor

namespace DataFilterService

/-- Embedding of `DataFilterService.extractFieldValue`: resolve a filter's
field path against `value`, `timestamp`, `labels.<k>`, `metadata.<k>`, or a
nested path inside a structured `value`. -/
def extractFieldValue (result : QueryResult) (fieldPath : String) :
    Option Value :=
  if fieldPath = "value" then some result.value
  else if fieldPath = "timestamp" then some (.num (result.timestamp : ℚ))
  else if strStartsWith fieldPath ("labels.") then
    getKey result.labels (fieldPath.drop 7)
  else if strStartsWith fieldPath ("metadata.") then
    getKey result.metadata (fieldPath.drop 9)
  else if truthy result.value && jsTypeof result.value = "object" then
    extractNestedValue result.value fieldPath
  else none

/-- Embedding of `DataFilterService.evaluateFilter`: absent/null field
values never match; otherwise stringify, normalize case unless
`caseSensitive`, and match per filter type (the regex type consults the
external engine `ext.rx`; an unknown type never matches). -/
def evaluateFilter (ext : Externals) (fieldValue : Option Value)
    (filter : DataFilter) : Bool :=
  match fieldValue with
  | none => false
  | some .null => false
  | some .undef => false
  | some fv =>
    let stringValue := jsToString fv
    let cs := filter.caseSensitive.getD false
    let pattern := if cs then filter.pattern else strToLower filter.pattern
    let value := if cs then stringValue else strToLower stringValue
    if filter.type = "exact" then value = pattern
    else if filter.type = "contains" then strIncludes value pattern
    else if filter.type = "startsWith" then strStartsWith value pattern
    else if filter.type = "endsWith" then strEndsWith value pattern
    else if filter.type = "regex" then ext.rx pattern cs stringValue
    else false

/-- One iteration of the `shouldIncludeResult` loop: `false` exactly when
the loop body would `return false` for this rule. -/
def rulePasses (ext : Externals) (result : QueryResult)
    (filter : DataFilter) : Bool :=
  let isMatch := evaluateFilter ext (extractFieldValue result filter.field)
    filter
  if filter.mode = "include" && !isMatch then false
  else if filter.mode = "exclude" && isMatch then false
  else true

/-- Embedding of `DataFilterService.shouldIncludeResult`: a record is kept
only when every configured rule passes. -/
def shouldIncludeResult (ext : Externals) (filters : List DataFilter)
    (result : QueryResult) : Bool :=
  filters.all (rulePasses ext result)

/-- Embedding of `DataFilterService.filterResults`. -/
def filterResults (ext : Externals) (filters : List DataFilter)
    (results : List QueryResult) : List QueryResult :=
  if filters.isEmpty then results
  else results.filter (shouldIncludeResult ext filters)

end DataFilterService

/-- Minimum of an integer list via a fold, modelling the nonempty spread
`Math.min(...xs)` (every use below is guarded by a nonempty group; the
empty case, `Infinity` in JS, is never reached). -/
def listMinI : List Int → Int
  | [] => 0
  | x :: xs => xs.foldl min x

/-- Maximum of an integer list via a fold, modelling the nonempty spread
`Math.max(...xs)`. -/
def listMaxI : List Int → Int
  | [] => 0
  | x :: xs => xs.foldl max x

/-- Minimum of a rational list via a fold (nonempty `Math.min` spread). -/
def listMinQ : List ℚ → ℚ
  | [] => 0
  | x :: xs => xs.foldl min x

/-- Maximum of a rational list via a fold (nonempty `Math.max` spread). -/
def listMaxQ : List ℚ → ℚ
  | [] => 0
  | x :: xs => xs.foldl max x

/-- JS array read `xs[i]` with a (mathematically integral) numeric index:
out-of-range and negative indices give `undefined` (`none`). -/
def jsGetNum (xs : List ℚ) (i : Int) : Option ℚ :=
  if 0 ≤ i then xs.get? i.toNat else none

namespace DataAggregator

/-- Numeric coercion used by `applyFunction`: a number stays (NaN remains
NaN), a string goes through `parseFloat`, anything else is NaN (`none`). -/
def numericCoerce (v : Value) : Option ℚ :=
  match v with
  | .num q => some q
  | .nan => none
  | .str s => parseFloatQ s
  | _ => none

/-- Coerce every record's value and discard the NaNs, as in the
`map`/`filter` pipeline of `applyFunction`. -/
def numericValues (data : List QueryResult) : List ℚ :=
  data.filterMap (fun d => numericCoerce d.value)

/-- Stable ascending sort by timestamp, modelling
`sort((a, b) => a.timestamp - b.timestamp)` (JS array sort is stable, so
any stable ascending sort gives the identical list). -/
def sortByTimestamp (data : List QueryResult) : List QueryResult :=
  data.insertionSort (fun a b => a.timestamp ≤ b.timestamp)

/-- Default handling `percentile || 95`: an absent — or zero, hence falsy —
percentile parameter falls back to 95. -/
def percOrDefault (p : Option ℚ) : ℚ :=
  match p with
  | some q => if q = 0 then 95 else q
  | none => 95

/-- Body of `calculatePercentile` after the sort: select the element at an
integral rank index, interpolate between the floor and ceiling neighbours
otherwise (`none` models the NaN/undefined outcome of an out-of-range
index). -/
def percAt (sorted : List ℚ) (index : ℚ) : Option ℚ :=
  if index.den = 1 then jsGetNum sorted index.num
  else
    let lower : Int := ⌊index⌋
    let upper : Int := ⌈index⌉
    let weight : ℚ := index - (lower : ℚ)
    match jsGetNum sorted lower, jsGetNum sorted upper with
    | some lo, some hi => some (lo * (1 - weight) + hi * weight)
    | _, _ => none

/-- Embedding of `DataAggregator.calculatePercentile`: sort ascending,
compute the rank index `(p/100)*(n-1)`; an integral index selects that
element, otherwise interpolate between its floor and ceiling neighbours. -/
def calculatePercentile (values : List ℚ) (percentile : ℚ) : Option ℚ :=
  let sorted := values.insertionSort (fun a b => a ≤ b)
  percAt sorted (percentile / 100 * ((sorted.length : ℚ) - 1))

/-- Embedding of `DataAggregator.applyFunction`: `first`/`last` return a
boundary value after a timestamp sort (an object becomes the empty
string); every other function first coerces to numerics, returns 0 when no
numeric value survives, then dispatches — an unknown name raises. -/
def applyFunction (data : List QueryResult) (func : String)
    (percentile : Option ℚ) : Except String Value :=
  if func = "last" || func = "first" then
    let sorted := sortByTimestamp data
    match (if func = "last" then sorted.getLast? else sorted.head?) with
    | none => .ok (.str "")
    | some r =>
      if jsTypeof r.value = "object" then .ok (.str "") else .ok r.value
  else
    let nv := numericValues data
    if nv.isEmpty then .ok (.num 0)
    else if func = "sum" then .ok (.num (nv.foldl (· + ·) 0))
    else if func = "avg" then
      .ok (.num (nv.foldl (· + ·) 0 / (nv.length : ℚ)))
    else if func = "min" then .ok (.num (listMinQ nv))
    else if func = "max" then .ok (.num (listMaxQ nv))
    else if func = "count" then .ok (.num (nv.length : ℚ))
    else if func = "percentile" then
      match calculatePercentile nv (percOrDefault percentile) with
      | some q => .ok (.num q)
      | none => .ok .nan
    else .error ("Unknown aggregation function: " ++ func)

/-- Embedding of `DataAggregator.extractFieldValue`: look a metric field up
in `labels`, then `metadata`, then `metadata.extractedFields`, then the
literal `value`/`timestamp` names. -/
def extractFieldValue (item : QueryResult) (field : String) : Option Value :=
  match getKey item.labels field with
  | some v => some v
  | none =>
    match getKey item.metadata field with
    | some v => some v
    | none =>
      let fromExtracted :=
        match getKey item.metadata ("extractedFields") with
        | some ef =>
          if truthy ef && jsTypeof ef = "object" && hasProp ef field then
            some ((getProp ef field).getD .undef)
          else none
        | none => none
      match fromExtracted with
      | some v => some v
      | none =>
        if field = "value" then some item.value
        else if field = "timestamp" then some (.num (item.timestamp : ℚ))
        else none

/-- Field name and date format of a group-by entry. -/
def gbField : GroupByItem → String × Option String
  | .fieldName f => (f, none)
  | .cfg c => (c.field, c.dateFormat)

/-- Embedding of `DataAggregator.generateGroupKey`: concatenate, in
group-by order, a `field:value` segment for every entry that resolves
(against `timestamp`, then `labels`, then `metadata`), joined by a pipe. -/
def generateGroupKey (ext : Externals) (item : QueryResult)
    (groupBy : List GroupByItem) : String :=
  let keyParts := groupBy.foldl (fun parts gbi =>
    let (field, dateFormat) := gbField gbi
    if field = "timestamp" then
      let valueStr :=
        match dateFormat with
        | some fmt =>
          if fmt = "" then toString item.timestamp
          else ext.fd (item.timestamp : ℚ) fmt
        | none => toString item.timestamp
      parts ++ [field ++ ":" ++ valueStr]
    else
      match getKey item.labels field with
      | some v =>
        let v2 :=
          match dateFormat, v with
          | some fmt, .num q =>
            if fmt = "" then Value.num q else Value.str (ext.fd q fmt)
          | _, _ => v
        parts ++ [field ++ ":" ++ jsToString v2]
      | none =>
        match getKey item.metadata field with
        | some v => parts ++ [field ++ ":" ++ jsToString v]
        | none => parts) []
  String.intercalate "|" keyParts

/-- Group-by loop shared by the aggregated-record builders: add a
`<field>_formatted` label for every date-formatted group-by entry that
resolves to the first member's timestamp or a numeric label. -/
def groupFormattedLabels (ext : Externals) (first : QueryResult)
    (base : List (String × Value)) (groupBy : List GroupByItem) :
    List (String × Value) :=
  groupBy.foldl (fun labels gbi =>
    let (field, dateFormat) := gbField gbi
    match dateFormat with
    | some fmt =>
      if fmt = "" then labels
      else if field = "timestamp" then
        setKey labels (field ++ "_formatted")
          (.str (ext.fd (first.timestamp : ℚ) fmt))
      else
        match getKey first.labels field with
        | some (.num q) =>
          setKey labels (field ++ "_formatted") (.str (ext.fd q fmt))
        | _ => labels
    | none => labels) base

/-- Embedding of `DataAggregator.createAggregatedResult` (global path):
earliest group timestamp on top, first member's labels plus an
`aggregation` label, and metadata summarizing the group. -/
def createAggregatedResult (group : List QueryResult) (value : Value)
    (aggregationType : String) : Except String QueryResult :=
  match group with
  | [] => .error ("Cannot create aggregated result from empty group")
  | first :: rest =>
    let timestamps := (first :: rest).map (fun g => g.timestamp)
    .ok {
      timestamp := listMinI timestamps,
      value := value,
      labels := setKey first.labels ("aggregation") (.str aggregationType),
      metadata := mergeMaps first.metadata
        [("aggregation", .str aggregationType),
         ("count", .num (((first :: rest).length : ℕ) : ℚ)),
         ("minTimestamp", .num ((listMinI timestamps : ℤ) : ℚ)),
         ("maxTimestamp", .num ((listMaxI timestamps : ℤ) : ℚ))] }

/-- Embedding of `DataAggregator.createAggregatedResultWithGrouping`: as
`createAggregatedResult`, plus `<field>_formatted` labels for
date-formatted group-by entries. -/
def createAggregatedResultWithGrouping (ext : Externals)
    (group : List QueryResult) (value : Value) (aggregationType : String)
    (groupBy : Option (List GroupByItem)) : Except String QueryResult :=
  match group with
  | [] => .error ("Cannot create aggregated result from empty group")
  | first :: rest =>
    let timestamps := (first :: rest).map (fun g => g.timestamp)
    let base := setKey first.labels ("aggregation") (.str aggregationType)
    let groupLabels :=
      match groupBy with
      | some gbs => groupFormattedLabels ext first base gbs
      | none => base
    .ok {
      timestamp := listMinI timestamps,
      value := value,
      labels := groupLabels,
      metadata := mergeMaps first.metadata
        [("aggregation", .str aggregationType),
         ("count", .num (((first :: rest).length : ℕ) : ℚ)),
         ("minTimestamp", .num ((listMinI timestamps : ℤ) : ℚ)),
         ("maxTimestamp", .num ((listMaxI timestamps : ℤ) : ℚ))] }

/-- One iteration of the metrics loop of `aggregateGroup`.  The legacy
`rate` metric divides the group size by its timespan; a zero timespan, a
non-finite number in JS, is modelled as NaN, and the in-place `sort` the
source applies there is modelled as a pure sorted copy. -/
def metricStep (_ext : Externals) (group : List QueryResult)
    (config : AggregationConfig) (mv : List (String × Value))
    (metric : MetricItem) : Except String (List (String × Value)) :=
  match metric with
  | .legacy s =>
    if s = "count" then .ok (setKey mv s (.num ((group.length : ℕ) : ℚ)))
    else if s = "rate" then
      let sorted := sortByTimestamp group
      match sorted.head?, sorted.getLast? with
      | some first, some last =>
        let timespan := ((last.timestamp - first.timestamp : ℤ) : ℚ) / 1000
        .ok (setKey mv s (if timespan = 0 then Value.nan
          else .num ((group.length : ℚ) / timespan)))
      | _, _ => .error ("TypeError")
    else
      match config.function with
      | some f =>
        if f = "" then .ok mv
        else (applyFunction group f config.percentile).map
          (fun v => setKey mv s v)
      | none => .ok mv
  | .cfg mc =>
    match mc.field with
    | some fld =>
      let dataToAggregate := group.filterMap (fun item =>
        match extractFieldValue item fld with
        | some .undef => none
        | some v => some { item with value := v }
        | none => none)
      if mc.function = "count" then
        .ok (setKey mv mc.name (.num ((dataToAggregate.length : ℕ) : ℚ)))
      else (applyFunction dataToAggregate mc.function mc.percentile).map
        (fun v => setKey mv mc.name v)
    | none =>
      if mc.function = "count" then
        .ok (setKey mv mc.name (.num ((group.length : ℕ) : ℚ)))
      else (applyFunction group mc.function mc.percentile).map
        (fun v => setKey mv mc.name v)

/-- No-metrics branch of `aggregateGroup`: with a (truthy) function, apply
it to the whole group and build one grouped record; otherwise the group is
returned as is. -/
def aggregateGroupNoMetrics (ext : Externals) (group : List QueryResult)
    (config : AggregationConfig) : Except String (List QueryResult) :=
  match config.function with
  | some f =>
    if f = "" then .ok group
    else
      match applyFunction group f config.percentile with
      | .error e => .error e
      | .ok value =>
        match createAggregatedResultWithGrouping ext group value f
            config.groupBy with
        | .error e => .error e
        | .ok res => .ok [res]
  | none => .ok group

/-- Embedding of `DataAggregator.aggregateGroup`: without metrics defer to
the function-only branch; with metrics compute every metric into one
mapping and emit a single multi-metric record summarizing the group. -/
def aggregateGroup (ext : Externals) (group : List QueryResult)
    (config : AggregationConfig) : Except String (List QueryResult) :=
  match config.metrics with
  | none => aggregateGroupNoMetrics ext group config
  | some ms =>
    if ms.isEmpty then aggregateGroupNoMetrics ext group config
    else
      match ms.foldlM (metricStep ext group config) [] with
      | .error e => .error e
      | .ok metricValues =>
      match group with
      | [] => .error ("TypeError")
      | first :: rest =>
        let timestamps := (first :: rest).map (fun g => g.timestamp)
        let groupLabels := groupFormattedLabels ext first first.labels
          (config.groupBy.getD [])
        .ok [{
          timestamp := listMinI timestamps,
          value := .obj metricValues,
          labels := groupLabels,
          metadata := mergeMaps first.metadata
            [("aggregation", .str ("multi-metric")),
             ("metrics", .obj metricValues),
             ("count", .num (((first :: rest).length : ℕ) : ℚ)),
             ("minTimestamp", .num ((listMinI timestamps : ℤ) : ℚ)),
             ("maxTimestamp", .num ((listMaxI timestamps : ℤ) : ℚ))] }]

/-- Insert a record into the bucket for its key, appending a fresh bucket
for a first-seen key: the JS `Map` grouping with insertion order. -/
def bucketInsert (buckets : List (String × List QueryResult)) (key : String)
    (item : QueryResult) : List (String × List QueryResult) :=
  if hasKeyB buckets key then
    buckets.map (fun b => if b.1 = key then (b.1, b.2 ++ [item]) else b)
  else buckets ++ [(key, [item])]

/-- Bucket every record by its group key, in first-seen key order. -/
def buildBuckets (ext : Externals) (data : List QueryResult)
    (groupBy : List GroupByItem) : List (String × List QueryResult) :=
  data.foldl (fun acc item =>
    bucketInsert acc (generateGroupKey ext item groupBy) item) []

/-- Embedding of `DataAggregator.groupAndAggregate`: bucket, aggregate each
bucket independently and concatenate in bucket-discovery order. -/
def groupAndAggregate (ext : Externals) (data : List QueryResult)
    (config : AggregationConfig) : Except String (List QueryResult) :=
  (buildBuckets ext data (config.groupBy.getD [])).foldlM
    (fun acc b =>
      match aggregateGroup ext b.2 config with
      | .error e => .error e
      | .ok aggregated => .ok (acc ++ aggregated)) []

/-- Embedding of `DataAggregator.applyAggregationFunction` (global path):
empty input stays empty, otherwise one aggregated record. -/
def applyAggregationFunction (data : List QueryResult) (func : String)
    (percentile : Option ℚ) : Except String (List QueryResult) :=
  if data.isEmpty then .ok []
  else
    match applyFunction data func percentile with
    | .error e => .error e
    | .ok value =>
      match createAggregatedResult data value func with
      | .error e => .error e
      | .ok res => .ok [res]

/-- Function-only fallthrough of `aggregate`, honoring the truthiness of
`config.function`. -/
def aggregateFnPath (data : List QueryResult) (cfg : AggregationConfig) :
    Except String (List QueryResult) :=
  match cfg.function with
  | some f =>
    if f = "" then .ok data
    else applyAggregationFunction data f cfg.percentile
  | none => .ok data

/-- Embedding of `DataAggregator.aggregate`: identity without a config,
grouped path for a nonempty `groupBy`, global path for a bare function. -/
def aggregate (ext : Externals) (data : List QueryResult)
    (config : Option AggregationConfig) : Except String (List QueryResult) :=
  match config with
  | none => .ok data
  | some cfg =>
    match cfg.groupBy with
    | some gbs =>
      if gbs.length > 0 then groupAndAggregate ext data cfg
      else aggregateFnPath data cfg
    | none => aggregateFnPath data cfg

end DataAggregator

/-- Concrete instantiation of the external-library bundle, used to evaluate
the development at concrete inputs (none of the concrete evaluations below
depend on the branches that consult it). -/
def ext0 : Externals where
  rx := fun _ _ _ => false
  fd := fun _ _ => ""
  dfmt := fun _ _ => .error ()
  parseDateStr := fun _ => none

/-- Record with a non-numeric string value, used for concrete evaluation. -/
def recStrAbc : QueryResult :=
  { timestamp := 5, value := .str ("abc"), labels := [], metadata := [] }

/-- Record with the numeric value 3, used for concrete evaluation. -/
def recNum3 : QueryResult :=
  { timestamp := 1, value := .num 3, labels := [], metadata := [] }

/-- List of the eight recognized aggregation function names
(`AGGREGATION_FUNCTIONS` in app.constants). -/
def AGGREGATION_FUNCTIONS : List String :=
  ["sum", "avg", "min", "max", "count", "percentile", "last", "first"]

/-- Filter rule on an absent label, include mode, used for evaluation. -/
def fAbsentInc : DataFilter :=
  { field := "labels.level", pattern := "x", mode := "include",
    type := "exact" }

/-- Include-mode contains rule on pattern `b`, used for evaluation. -/
def fIncContains : DataFilter :=
  { field := "value", pattern := "b", mode := "include", type := "contains" }

/-- Exclude-mode exact rule on the same field and pattern. -/
def fExcExact : DataFilter :=
  { field := "value", pattern := "b", mode := "exclude", type := "exact" }

/-- Exclude-mode contains rule on the same field and pattern. -/
def fExcContains : DataFilter :=
  { field := "value", pattern := "b", mode := "exclude", type := "contains" }

/-- Extraction rule reading the existing label `service`. -/
def fldLabelService : FieldExtraction :=
  { name := "svc", path := "labels.service" }

/-- Extraction rule with only the `date` transform configured. -/
def fldDateOnly : FieldExtraction :=
  { name := "d", path := "x", transform := some ("date") }

/-- Record with a JSON payload and one label, used for evaluation. -/
def recJson : QueryResult :=
  { timestamp := 7,
    value := .str ("\x7b\"user\":\x7b\"id\":\"u1\"\x7d\x7d"),
    labels := [("service", .str ("api"))],
    metadata := [("source", .str ("test"))] }

/-- Extraction rule for the nested path `user.id`. -/
def fldUserId : FieldExtraction := { name := "user_id", path := "user.id" }

/-- Summary-statistics property of an aggregated record with respect to
its source group: the top-level timestamp is the minimum member timestamp,
`metadata.count` is the group size, and `metadata.minTimestamp` /
`metadata.maxTimestamp` are the minimum / maximum member timestamps. -/
def summaryStats (res : QueryResult) (group : List QueryResult) : Prop :=
  (res.timestamp ∈ group.map (fun g => g.timestamp) ∧
    ∀ t ∈ group.map (fun g => g.timestamp), res.timestamp ≤ t) ∧
  getKey res.metadata ("count") =
    some (.num ((group.length : ℕ) : ℚ)) ∧
  (∃ m : Int, getKey res.metadata ("minTimestamp") =
      some (.num (m : ℚ)) ∧
    m ∈ group.map (fun g => g.timestamp) ∧
    ∀ t ∈ group.map (fun g => g.timestamp), m ≤ t) ∧
  (∃ m : Int, getKey res.metadata ("maxTimestamp") =
      some (.num (m : ℚ)) ∧
    m ∈ group.map (fun g => g.timestamp) ∧
    ∀ t ∈ group.map (fun g => g.timestamp), t ≤ m)

/-- Record used as a second group member in concrete evaluations. -/
def aggResW : QueryResult :=
  { timestamp := 1, value := .num 7,
    labels := [("aggregation", .str ("sum"))],
    metadata := [("aggregation", .str ("sum")), ("count", .num 2),
      ("minTimestamp", .num 1), ("maxTimestamp", .num 5)] }

/-- First-seen-order deduplication of a key sequence, starting from the
keys already seen: the bucket-key order produced by a JS `Map`. -/
def firstSeen (init : List String) (keys : List String) : List String :=
  keys.foldl (fun acc k => if k ∈ acc then acc else acc ++ [k]) init

/-- Two records lie in a common bucket of the given bucket list. -/
def inSameBucket (bs : List (String × List QueryResult))
    (r1 r2 : QueryResult) : Prop :=
  ∃ b ∈ bs, r1 ∈ b.2 ∧ r2 ∈ b.2

/-- Record in group `api` with timestamp 3 and value 100. -/
def recApi3 : QueryResult :=
  { timestamp := 3, value := .num 100,
    labels := [("service", .str ("api"))], metadata := [] }

/-- Record in group `web` with timestamp 1 and value 75. -/
def recWeb1 : QueryResult :=
  { timestamp := 1, value := .num 75,
    labels := [("service", .str ("web"))], metadata := [] }

/-- Record in group `api` with timestamp 2 and value 150. -/
def recApi2 : QueryResult :=
  { timestamp := 2, value := .num 150,
    labels := [("service", .str ("api"))], metadata := [] }

/-- Three-record input for the grouped-aggregation evaluation. -/
def dataC9 : List QueryResult := [recApi3, recWeb1, recApi2]

/-- Group-by-service sum configuration. -/
def cfgGroupSum : AggregationConfig :=
  { groupBy := some [.fieldName ("service")], function := some ("sum") }

/-- Expected grouped output: one summed record per service in first-seen
key order (`api` before `web`). -/
def outC9 : List QueryResult :=
  [{ timestamp := 2, value := .num 250,
     labels := [("service", .str ("api")), ("aggregation", .str ("sum"))],
     metadata := [("aggregation", .str ("sum")), ("count", .num 2),
       ("minTimestamp", .num 2), ("maxTimestamp", .num 3)] },
   { timestamp := 1, value := .num 75,
     labels := [("service", .str ("web")), ("aggregation", .str ("sum"))],
     metadata := [("aggregation", .str ("sum")), ("count", .num 1),
       ("minTimestamp", .num 1), ("maxTimestamp", .num 1)] }]

theorem getKey_setKey_self {α : Type} (m : List (String × α)) (k : String)
    (v : α) : getKey (setKey m k v) k = some v := by
  unfold setKey
  split
  case isTrue h =>
    induction m with
    | nil => simp [hasKeyB] at h
    | cons p rest ih =>
      by_cases hp : p.1 = k
      · simp [getKey, hp]
      · simp only [List.map_cons, if_neg hp, getKey, hp, if_false]
        apply ih
        simpa [hasKeyB, hp] using h
  case isFalse h =>
    induction m with
    | nil => simp [getKey]
    | cons p rest ih =>
      have hp : ¬p.1 = k := by
        intro hk
        exact h (by simp [hasKeyB, hk])
      simp only [List.cons_append, getKey, hp, if_false]
      apply ih
      intro hm
      exact h (by simpa [hasKeyB, hp] using hm)

theorem getKey_map_set_ne {α : Type} (m : List (String × α)) (k k' : String)
    (v : α) (hne : k' ≠ k) :
    getKey (m.map (fun p => if p.1 = k then (k, v) else p)) k' =
      getKey m k' := by
  induction m with
  | nil => simp [getKey]
  | cons p rest ih =>
    by_cases hp : p.1 = k
    · simp [getKey, hp, Ne.symm hne, ih]
    · simp [getKey, hp, ih]

theorem getKey_append_single_ne {α : Type} (m : List (String × α))
    (k k' : String) (v : α) (hne : k' ≠ k) :
    getKey (m ++ [(k, v)]) k' = getKey m k' := by
  induction m with
  | nil => simp [getKey, Ne.symm hne]
  | cons p rest ih => by_cases hp : p.1 = k' <;> simp [getKey, hp, ih]

theorem getKey_setKey_ne {α : Type} (m : List (String × α)) (k k' : String)
    (v : α) (hne : k' ≠ k) : getKey (setKey m k v) k' = getKey m k' := by
  unfold setKey
  split
  · exact getKey_map_set_ne m k k' v hne
  · exact getKey_append_single_ne m k k' v hne

/-- C1 (amended): for every record list and function name outside the
eight recognized aggregation functions, `applyFunction` raises the
`Unknown aggregation function` error exactly when at least one record
value coerces to a number (so the coerced list is nonempty); when no
numeric value survives coercion it returns 0 without raising, because the
zero-survivors check precedes the function-name dispatch. -/
theorem applyFunction_unknown_function (data : List QueryResult)
    (func : String) (p : Option ℚ) (h : func ∉ AGGREGATION_FUNCTIONS) :
    DataAggregator.applyFunction data func p =
      if (DataAggregator.numericValues data).isEmpty then
        Except.ok (Value.num 0)
      else Except.error ("Unknown aggregation function: " ++ func) := by
  simp only [AGGREGATION_FUNCTIONS, List.mem_cons, not_or,
    List.not_mem_nil, not_false_iff, and_true] at h
  obtain ⟨h1, h2, h3, h4, h5, h6, h7, h8⟩ := h
  by_cases he : (DataAggregator.numericValues data).isEmpty <;>
    simp [DataAggregator.applyFunction, h1, h2, h3, h4, h5, h6, h7, h8, he]

/-- C1 counterexample: with the unknown function name `bogus` and a record
list whose only value is the non-numeric string `abc`, the aggregation
does not raise — it returns 0 — refuting the claim that an unrecognized
name raises for every input record list. -/
theorem applyFunction_unknown_function_counterexample :
    ("bogus" ∉ AGGREGATION_FUNCTIONS) ∧
    DataAggregator.applyFunction [recStrAbc] ("bogus") none =
      Except.ok (Value.num 0) :=
  ⟨by decide, by rfl⟩

/-- C1 witness: at the unknown name `bogus` and a record with numeric
value 3, the amended theorem yields the fatal error. -/
theorem applyFunction_unknown_function_witness :
    ("bogus" ∉ AGGREGATION_FUNCTIONS) ∧
    DataAggregator.applyFunction [recNum3] ("bogus") none =
      Except.error ("Unknown aggregation function: bogus") := by
  refine ⟨by decide, ?_⟩
  rw [applyFunction_unknown_function [recNum3] ("bogus") none (by decide)]
  rfl

/-- C4: for `sum`/`avg`/`min`/`max`/`count`, `applyFunction` (which first
coerces every record value through `numericCoerce` — numbers kept,
strings parsed, anything else NaN — and discards the NaNs, yielding
`numericValues`) always succeeds with a numeric result, and returns
exactly 0 whenever zero numeric values survive. -/
theorem applyFunction_basic_graceful (data : List QueryResult)
    (p : Option ℚ) (func : String)
    (h : func ∈ ["sum", "avg", "min", "max", "count"]) :
    (∃ q : ℚ, DataAggregator.applyFunction data func p =
      Except.ok (Value.num q)) ∧
    (DataAggregator.numericValues data = [] →
      DataAggregator.applyFunction data func p =
        Except.ok (Value.num 0)) := by
  fin_cases h <;>
  · constructor
    · by_cases he : (DataAggregator.numericValues data).isEmpty <;>
        · simp only [DataAggregator.applyFunction, he]
          simp
    · intro h0
      simp [DataAggregator.applyFunction, h0]

/-- C4 witness: summing a list whose only value is the non-numeric string
`abc` gives exactly 0, with no exception. -/
theorem applyFunction_basic_graceful_witness :
    ("sum" ∈ ["sum", "avg", "min", "max", "count"]) ∧
    DataAggregator.applyFunction [recStrAbc] ("sum") none =
      Except.ok (Value.num 0) :=
  ⟨by decide,
    (applyFunction_basic_graceful [recStrAbc] none ("sum") (by decide)).2
      (by rfl)⟩

theorem jsGetNum_eq_some (xs : List ℚ) (i : Int) (h0 : 0 ≤ i)
    (hlt : i.toNat < xs.length) :
    jsGetNum xs i = some (xs.get ⟨i.toNat, hlt⟩) := by
  simp [jsGetNum, h0, List.get?_eq_get hlt]

theorem percAt_isSome (sorted : List ℚ) (i : ℚ) (h0 : 0 ≤ i)
    (h1 : i ≤ (sorted.length : ℚ) - 1) :
    ∃ q, DataAggregator.percAt sorted i = some q := by
  have hlen1 : (1 : ℚ) ≤ (sorted.length : ℚ) := by
    have := h0.trans h1
    by_contra hc
    push_neg at hc
    have h00 : (0 : ℚ) ≤ (sorted.length : ℚ) := by positivity
    linarith
  by_cases hden : i.den = 1
  · have hiq : (i.num : ℚ) = i := Rat.coe_int_num_of_den_eq_one hden
    have hnum0 : 0 ≤ i.num := by
      rw [← Rat.num_nonneg] at h0
      exact h0
    have hnumlt : i.num < (sorted.length : ℤ) := by
      have : (i.num : ℚ) < (sorted.length : ℚ) := by rw [hiq]; linarith
      exact_mod_cast this
    have hlt : i.num.toNat < sorted.length := by omega
    refine ⟨sorted.get ⟨i.num.toNat, hlt⟩, ?_⟩
    simp only [DataAggregator.percAt, hden, if_true,
      jsGetNum_eq_some sorted i.num hnum0 hlt]
  · have hfl0 : 0 ≤ ⌊i⌋ := Int.floor_nonneg.mpr h0
    have hcl0 : 0 ≤ ⌈i⌉ := Int.ceil_nonneg h0
    have hcl : ⌈i⌉ < (sorted.length : ℤ) := by
      have hle : ⌈i⌉ ≤ (sorted.length : ℤ) - 1 := by
        apply Int.ceil_le.mpr
        push_cast
        linarith
      omega
    have hfl : ⌊i⌋ < (sorted.length : ℤ) :=
      lt_of_le_of_lt (Int.floor_le_ceil i) hcl
    have hfln : ⌊i⌋.toNat < sorted.length := by omega
    have hcln : ⌈i⌉.toNat < sorted.length := by omega
    refine ⟨sorted.get ⟨⌊i⌋.toNat, hfln⟩ * (1 - (i - (⌊i⌋ : ℚ))) +
      sorted.get ⟨⌈i⌉.toNat, hcln⟩ * (i - (⌊i⌋ : ℚ)), ?_⟩
    simp only [DataAggregator.percAt, hden, if_false,
      jsGetNum_eq_some sorted ⌊i⌋ hfl0 hfln,
      jsGetNum_eq_some sorted ⌈i⌉ hcl0 hcln]

/-- C5: for every nonempty value list and percentile `p` in `[0, 100]`,
`calculatePercentile` — which sorts ascending (the sorted list is an
ordered permutation of the input) and evaluates the rank index
`(p/100)*(n-1)` by selection or linear interpolation — produces a value;
and on `[75, 100, 150, 200]` it gives exactly 125 at `p = 50` and a value
above 190 (namely 192.5) at `p = 95`. -/
theorem calculatePercentile_spec (values : List ℚ) (p : ℚ)
    (hne : values ≠ []) (h0 : 0 ≤ p) (h1 : p ≤ 100) :
    (List.Sorted (· ≤ ·) (values.insertionSort (fun a b => a ≤ b)) ∧
      (values.insertionSort (fun a b => a ≤ b)).Perm values) ∧
    (∃ q, DataAggregator.calculatePercentile values p = some q) ∧
    DataAggregator.calculatePercentile [75, 100, 150, 200] 50 = some 125 ∧
    (∃ q, DataAggregator.calculatePercentile [75, 100, 150, 200] 95 =
      some q ∧ 190 < q) := by
  refine ⟨⟨?_, ?_⟩, ?_, by rfl, ⟨385 / 2, by rfl, by norm_num⟩⟩
  · exact List.sorted_insertionSort _ values
  · exact List.perm_insertionSort _ values
  · have hlen : (values.insertionSort (fun a b => a ≤ b)).length =
        values.length := List.length_insertionSort _ _
    have hpos : 0 < values.length := List.length_pos.mpr hne
    have hr0 : 0 ≤ p / 100 *
        (((values.insertionSort (fun a b => a ≤ b)).length : ℚ) - 1) := by
      apply mul_nonneg (by positivity)
      rw [hlen]
      have : (1 : ℚ) ≤ (values.length : ℚ) := by exact_mod_cast hpos
      linarith
    have hr1 : p / 100 *
        (((values.insertionSort (fun a b => a ≤ b)).length : ℚ) - 1) ≤
        ((values.insertionSort (fun a b => a ≤ b)).length : ℚ) - 1 := by
      have hp1 : p / 100 ≤ 1 := by
        rw [div_le_one (by norm_num)]
        linarith
      have hn1 : (0 : ℚ) ≤
          ((values.insertionSort (fun a b => a ≤ b)).length : ℚ) - 1 := by
        rw [hlen]
        have : (1 : ℚ) ≤ (values.length : ℚ) := by exact_mod_cast hpos
        linarith
      calc p / 100 *
          (((values.insertionSort (fun a b => a ≤ b)).length : ℚ) - 1) ≤
          1 * (((values.insertionSort (fun a b => a ≤ b)).length : ℚ) - 1) :=
            mul_le_mul_of_nonneg_right hp1 hn1
        _ = ((values.insertionSort (fun a b => a ≤ b)).length : ℚ) - 1 :=
            one_mul _
    exact percAt_isSome _ _ hr0 hr1

/-- C5 witness: the general well-definedness applied at the documented
example input, alongside its closed conjuncts. -/
theorem calculatePercentile_spec_witness :
    (([75, 100, 150, 200] : List ℚ) ≠ [] ∧ (0 : ℚ) ≤ 50 ∧ (50 : ℚ) ≤ 100) ∧
    DataAggregator.calculatePercentile [75, 100, 150, 200] 50 = some 125 :=
  ⟨⟨by decide, by norm_num, by norm_num⟩,
    (calculatePercentile_spec [75, 100, 150, 200] 50 (by decide)
      (by norm_num) (by norm_num)).2.2.1⟩

theorem rulePasses_include (ext : Externals) (r : QueryResult)
    (f : DataFilter) (hm : f.mode = "include") :
    DataFilterService.rulePasses ext r f =
      DataFilterService.evaluateFilter ext
        (DataFilterService.extractFieldValue r f.field) f := by
  unfold DataFilterService.rulePasses
  cases hv : DataFilterService.evaluateFilter ext
      (DataFilterService.extractFieldValue r f.field) f <;> simp [hm, hv]

theorem rulePasses_exclude (ext : Externals) (r : QueryResult)
    (f : DataFilter) (hm : f.mode = "exclude") :
    DataFilterService.rulePasses ext r f =
      !(DataFilterService.evaluateFilter ext
        (DataFilterService.extractFieldValue r f.field) f) := by
  unfold DataFilterService.rulePasses
  cases hv : DataFilterService.evaluateFilter ext
      (DataFilterService.extractFieldValue r f.field) f <;> simp [hm, hv]

/-- C6: when a filter rule's field resolves to absent (`none`) or to null
on a record, the rule evaluates to no-match regardless of its mode; hence
the per-rule verdict rejects the record under include mode and lets it
pass under exclude mode. -/
theorem filter_absent_field_no_match (ext : Externals) (result : QueryResult)
    (f : DataFilter)
    (h : DataFilterService.extractFieldValue result f.field = none ∨
      DataFilterService.extractFieldValue result f.field = some .null) :
    DataFilterService.evaluateFilter ext
      (DataFilterService.extractFieldValue result f.field) f = false ∧
    (f.mode = "include" →
      DataFilterService.rulePasses ext result f = false) ∧
    (f.mode = "exclude" →
      DataFilterService.rulePasses ext result f = true) := by
  have hev : DataFilterService.evaluateFilter ext
      (DataFilterService.extractFieldValue result f.field) f = false := by
    rcases h with h | h <;> rw [h] <;> rfl
  refine ⟨hev, fun hm => ?_, fun hm => ?_⟩
  · rw [rulePasses_include ext result f hm, hev]
  · rw [rulePasses_exclude ext result f hm, hev]
    rfl

/-- C6 witness: on a record without labels, the include-mode rule on
`labels.level` rejects the record. -/
theorem filter_absent_field_no_match_witness :
    (DataFilterService.extractFieldValue recStrAbc fAbsentInc.field =
      none) ∧
    DataFilterService.rulePasses ext0 recStrAbc fAbsentInc = false :=
  ⟨by rfl,
    (filter_absent_field_no_match ext0 recStrAbc fAbsentInc
      (Or.inl (by rfl))).2.1 (by rfl)⟩

theorem evaluateFilter_congr (ext : Externals) (fv : Option Value)
    (f1 f2 : DataFilter) (hpat : f1.pattern = f2.pattern)
    (hty : f1.type = f2.type) (hcs : f1.caseSensitive = f2.caseSensitive) :
    DataFilterService.evaluateFilter ext fv f1 =
      DataFilterService.evaluateFilter ext fv f2 := by
  unfold DataFilterService.evaluateFilter
  cases fv with
  | none => rfl
  | some v => cases v <;> (try rfl) <;> rw [hpat, hty, hcs]

/-- C7 (amended): filtering keeps a record exactly when it passes every
configured rule (logical AND across rules); and every rule set containing
two rules that agree on field, pattern, match type and case-sensitivity
but carry opposite modes filters every input to the empty list.  (As
stated — same field and pattern only — the claim fails; see the
counterexample with differing match types.) -/
theorem filterResults_and_semantics (ext : Externals) (fs : List DataFilter)
    (rs : List QueryResult) :
    (∀ r, r ∈ DataFilterService.filterResults ext fs rs ↔
      r ∈ rs ∧ ∀ f ∈ fs, DataFilterService.rulePasses ext r f = true) ∧
    (∀ f1 f2, f1 ∈ fs → f2 ∈ fs → f1.field = f2.field →
      f1.pattern = f2.pattern → f1.type = f2.type →
      f1.caseSensitive = f2.caseSensitive → f1.mode = "include" →
      f2.mode = "exclude" →
      DataFilterService.filterResults ext fs rs = []) := by
  constructor
  · intro r
    by_cases hfs : fs.isEmpty
    · rw [List.isEmpty_iff.mp hfs]
      simp [DataFilterService.filterResults]
    · simp [DataFilterService.filterResults, hfs,
        DataFilterService.shouldIncludeResult, List.mem_filter,
        List.all_eq_true]
  · intro f1 f2 hf1 hf2 hfield hpat hty hcs hm1 hm2
    have hfs : ¬fs.isEmpty = true := by
      intro h
      rw [List.isEmpty_iff.mp h] at hf1
      exact absurd hf1 (List.not_mem_nil f1)
    have hkey : ∀ r : QueryResult,
        DataFilterService.shouldIncludeResult ext fs r = false := by
      intro r
      by_contra hc
      have hall : ∀ f ∈ fs,
          DataFilterService.rulePasses ext r f = true := by
        rw [Bool.not_eq_false] at hc
        exact List.all_eq_true.mp hc
      have hp1 := hall f1 hf1
      have hp2 := hall f2 hf2
      rw [rulePasses_include ext r f1 hm1] at hp1
      rw [rulePasses_exclude ext r f2 hm2, Bool.not_eq_true'] at hp2
      rw [← hfield] at hp2
      rw [evaluateFilter_congr ext _ f1 f2 hpat hty hcs] at hp1
      exact absurd (hp2 ▸ hp1) (by simp)
    unfold DataFilterService.filterResults
    rw [if_neg hfs, List.filter_eq_nil_iff]
    intro r _
    simp [hkey r]

/-- C7 counterexample: two rules sharing field and pattern with opposite
modes — but different match types (`contains` vs `exact`) — keep the
record with value `abc`, refuting the claim that such a pair always
empties the output. -/
theorem filterResults_opposite_modes_counterexample :
    fIncContains.field = fExcExact.field ∧
    fIncContains.pattern = fExcExact.pattern ∧
    fIncContains.mode = "include" ∧ fExcExact.mode = "exclude" ∧
    DataFilterService.filterResults ext0 [fIncContains, fExcExact]
      [recStrAbc] = [recStrAbc] :=
  ⟨rfl, rfl, rfl, rfl, by rfl⟩

/-- C7 witness: the amended pair property applied to two contains rules
with opposite modes empties a concrete record list. -/
theorem filterResults_and_semantics_witness :
    DataFilterService.filterResults ext0 [fIncContains, fExcContains]
      [recStrAbc] = [] :=
  (filterResults_and_semantics ext0 [fIncContains, fExcContains]
      [recStrAbc]).2 fIncContains fExcContains (List.mem_cons_self _ _)
    (List.mem_cons_of_mem _ (List.mem_cons_self _ _)) rfl rfl rfl rfl rfl
    rfl

/-- C2 counterexample: on the textual payload `not json`, whose JSON parse
fails, a `labels.`-prefixed rule produces nothing — the extraction is
empty — even though the same rule does succeed against an (empty) object
payload with the same labels; this refutes the claim that labels-prefixed
and literal `value`/`timestamp` rules can still produce fields after a
parse failure. -/
theorem extractFields_unparsed_text_counterexample :
    tryParseJSON ("not json") = none ∧
    FieldExtractor.extractValue ext0 (.obj []) fldLabelService
      [("service", .str ("api"))] = some (.str ("api")) ∧
    FieldExtractor.extractFields ext0 [fldLabelService] (.str ("not json"))
      [("service", .str ("api"))] = [] :=
  ⟨by rfl, by rfl, by rfl⟩

/-- C2 (amended): for a textual payload whose JSON parse fails, the
extraction returns the empty mapping for every rule list and every label
set — all rules, including labels-prefixed and literal `value`/`timestamp`
rules, become no-ops, because rules are only applied when the working data
is a non-null object. -/
theorem extractFields_unparsed_text_empty (ext : Externals)
    (flds : List FieldExtraction) (s : String)
    (labels : List (String × Value)) (h : tryParseJSON s = none) :
    FieldExtractor.extractFields ext flds (.str s) labels = [] := by
  unfold FieldExtractor.extractFields
  by_cases hf : flds.isEmpty
  · simp [hf]
  · simp [hf, h, truthy, jsTypeof]

/-- C2 witness: the amended no-op property evaluated on the `not json`
payload with a labels-prefixed rule and a matching existing label. -/
theorem extractFields_unparsed_text_empty_witness :
    tryParseJSON ("not json") = none ∧
    FieldExtractor.extractFields ext0 [fldLabelService] (.str ("not json"))
      [("service", .str ("api"))] = [] :=
  ⟨by rfl,
    extractFields_unparsed_text_empty ext0 [fldLabelService] ("not json")
      [("service", .str ("api"))] (by rfl)⟩

/-- C3 counterexample: at the boundary value 1e12 the `date` transform
scales by 1000 — the resulting date is `new Date(1e12 * 1000)`, not
`new Date(1e12)` — refuting the claim that 1e12 is treated as
milliseconds. -/
theorem date_transform_boundary_counterexample :
    formatFieldValue ext0 (.num (10 ^ 12)) fldDateOnly =
      .date (some (10 ^ 15)) ∧
    Value.date (some ((10 : ℚ) ^ 15)) ≠ Value.date (some ((10 : ℚ) ^ 12)) :=
  ⟨by rfl, by
    intro hcon
    rw [Value.date.injEq, Option.some.injEq] at hcon
    norm_num at hcon⟩

/-- C3 (amended): under the `date` transform (with no format pattern and
no type coercion configured), a numeric value is treated as milliseconds
exactly when it exceeds the threshold 1e12 strictly, and as seconds scaled
by 1000 otherwise; the boundary value 1e12 itself falls in the seconds
branch. -/
theorem date_transform_threshold (ext : Externals) (v : ℚ)
    (fld : FieldExtraction) (ht : fld.transform = some ("date"))
    (hf : fld.format = none) (hty : fld.type = none) :
    formatFieldValue ext (.num v) fld =
      .date (some (if v > TIMESTAMP_THRESHOLD then v
        else v * S_TO_MS_MULTIPLIER)) := by
  unfold formatFieldValue transformStep formatStep typeStep
  simp [ht, hf, hty]

/-- C3 witness: the amended threshold rule evaluated at the boundary value
1e12, which lands in the seconds branch and yields `new Date(1e15)`. -/
theorem date_transform_threshold_witness :
    (fldDateOnly.transform = some ("date") ∧ fldDateOnly.format = none ∧
      fldDateOnly.type = none) ∧
    formatFieldValue ext0 (.num (10 ^ 12)) fldDateOnly =
      .date (some (10 ^ 15)) :=
  ⟨⟨rfl, rfl, rfl⟩, by
    rw [date_transform_threshold ext0 (10 ^ 12) fldDateOnly rfl rfl rfl]
    rfl⟩

/-- C8: when the extraction produces a non-empty mapping,
`applyToQueryResult` returns a record with unchanged timestamp and value,
labels equal to the old labels merged with the extracted fields (extracted
keys win), an `extractedFields` metadata entry holding exactly the
extracted mapping, and every other metadata key unchanged; when the
extraction is empty it returns the input record itself. -/
theorem applyToQueryResult_spec (ext : Externals)
    (flds : List FieldExtraction) (result : QueryResult)
    (rawValue : Option Value)
    (ef : List (String × Value))
    (hef : FieldExtractor.extractFields ext flds
      (FieldExtractor.rawOrValue result rawValue) result.labels = ef) :
    (ef ≠ [] →
      (FieldExtractor.applyToQueryResult ext flds result
          rawValue).timestamp = result.timestamp ∧
      (FieldExtractor.applyToQueryResult ext flds result rawValue).value =
        result.value ∧
      (FieldExtractor.applyToQueryResult ext flds result rawValue).labels =
        mergeMaps result.labels ef ∧
      getKey (FieldExtractor.applyToQueryResult ext flds result
          rawValue).metadata ("extractedFields") = some (.obj ef) ∧
      (∀ k, k ≠ "extractedFields" →
        getKey (FieldExtractor.applyToQueryResult ext flds result
            rawValue).metadata k = getKey result.metadata k)) ∧
    (ef = [] →
      FieldExtractor.applyToQueryResult ext flds result rawValue =
        result) := by
  constructor
  · intro hne
    have hlen : 0 < ef.length := List.length_pos.mpr hne
    simp only [FieldExtractor.applyToQueryResult, hef, if_pos hlen]
    refine ⟨trivial, trivial, trivial, getKey_setKey_self _ _ _,
      fun k hk => getKey_setKey_ne _ _ _ _ hk⟩
  · intro he
    simp only [FieldExtractor.applyToQueryResult, hef, he]
    simp

/-- C8 witness: the non-empty branch evaluated on a record with a JSON
payload — labels gain the extracted key and metadata gains the
`extractedFields` entry. -/
theorem applyToQueryResult_spec_witness :
    (FieldExtractor.extractFields ext0 [fldUserId]
        (FieldExtractor.rawOrValue recJson none) recJson.labels =
      [("user_id", Value.str ("u1"))] ∧
      ([("user_id", Value.str ("u1"))] : List (String × Value)) ≠ []) ∧
    (FieldExtractor.applyToQueryResult ext0 [fldUserId] recJson
        none).labels =
      mergeMaps recJson.labels [("user_id", Value.str ("u1"))] ∧
    getKey (FieldExtractor.applyToQueryResult ext0 [fldUserId] recJson
        none).metadata ("extractedFields") =
      some (.obj [("user_id", Value.str ("u1"))]) := by
  refine ⟨⟨by rfl, by simp⟩, ?_, ?_⟩
  · exact ((applyToQueryResult_spec ext0 [fldUserId] recJson none
      [("user_id", Value.str ("u1"))] (by rfl)).1 (by simp)).2.2.1
  · exact ((applyToQueryResult_spec ext0 [fldUserId] recJson none
      [("user_id", Value.str ("u1"))] (by rfl)).1 (by simp)).2.2.2.1

theorem foldlMin_mem (x : Int) (xs : List Int) :
    xs.foldl min x = x ∨ xs.foldl min x ∈ xs := by
  induction xs generalizing x with
  | nil => exact Or.inl rfl
  | cons y ys ih =>
    simp only [List.foldl_cons]
    rcases ih (min x y) with h | h
    · rcases min_cases x y with ⟨hm, _⟩ | ⟨hm, _⟩
      · exact Or.inl (by rw [h, hm])
      · exact Or.inr (by rw [h, hm]; exact List.mem_cons_self _ _)
    · exact Or.inr (List.mem_cons_of_mem _ h)

theorem foldlMin_le (x : Int) (xs : List Int) :
    xs.foldl min x ≤ x ∧ ∀ a ∈ xs, xs.foldl min x ≤ a := by
  induction xs generalizing x with
  | nil => exact ⟨le_refl x, by simp⟩
  | cons y ys ih =>
    simp only [List.foldl_cons]
    obtain ⟨h1, h2⟩ := ih (min x y)
    refine ⟨h1.trans (min_le_left x y), ?_⟩
    intro a ha
    rcases List.mem_cons.mp ha with rfl | ha
    · exact h1.trans (min_le_right x a)
    · exact h2 a ha

theorem foldlMax_mem (x : Int) (xs : List Int) :
    xs.foldl max x = x ∨ xs.foldl max x ∈ xs := by
  induction xs generalizing x with
  | nil => exact Or.inl rfl
  | cons y ys ih =>
    simp only [List.foldl_cons]
    rcases ih (max x y) with h | h
    · rcases max_cases x y with ⟨hm, _⟩ | ⟨hm, _⟩
      · exact Or.inl (by rw [h, hm])
      · exact Or.inr (by rw [h, hm]; exact List.mem_cons_self _ _)
    · exact Or.inr (List.mem_cons_of_mem _ h)

theorem foldlMax_ge (x : Int) (xs : List Int) :
    x ≤ xs.foldl max x ∧ ∀ a ∈ xs, a ≤ xs.foldl max x := by
  induction xs generalizing x with
  | nil => exact ⟨le_refl x, by simp⟩
  | cons y ys ih =>
    simp only [List.foldl_cons]
    obtain ⟨h1, h2⟩ := ih (max x y)
    refine ⟨(le_max_left x y).trans h1, ?_⟩
    intro a ha
    rcases List.mem_cons.mp ha with rfl | ha
    · exact (le_max_right x a).trans h1
    · exact h2 a ha

theorem listMinI_spec (l : List Int) (h : l ≠ []) :
    listMinI l ∈ l ∧ ∀ a ∈ l, listMinI l ≤ a := by
  match l with
  | x :: xs =>
    show (xs.foldl min x) ∈ x :: xs ∧ ∀ a ∈ x :: xs, xs.foldl min x ≤ a
    constructor
    · rcases foldlMin_mem x xs with h1 | h1
      · rw [h1]; exact List.mem_cons_self _ _
      · exact List.mem_cons_of_mem _ h1
    · intro a ha
      rcases List.mem_cons.mp ha with rfl | ha
      · exact (foldlMin_le a xs).1
      · exact (foldlMin_le x xs).2 a ha

theorem listMaxI_spec (l : List Int) (h : l ≠ []) :
    listMaxI l ∈ l ∧ ∀ a ∈ l, a ≤ listMaxI l := by
  match l with
  | x :: xs =>
    show (xs.foldl max x) ∈ x :: xs ∧ ∀ a ∈ x :: xs, a ≤ xs.foldl max x
    constructor
    · rcases foldlMax_mem x xs with h1 | h1
      · rw [h1]; exact List.mem_cons_self _ _
      · exact List.mem_cons_of_mem _ h1
    · intro a ha
      rcases List.mem_cons.mp ha with rfl | ha
      · exact (foldlMax_ge a xs).1
      · exact (foldlMax_ge x xs).2 a ha

theorem mergeMaps_cons {α : Type} (m : List (String × α)) (k : String)
    (v : α) (rest : List (String × α)) :
    mergeMaps m ((k, v) :: rest) = mergeMaps (setKey m k v) rest := rfl

theorem mergeMaps_nil {α : Type} (m : List (String × α)) :
    mergeMaps m [] = m := rfl

/-- C10: for every nonempty group, the three aggregated-record builders —
the global-path `createAggregatedResult`, the grouped function-only
`createAggregatedResultWithGrouping`, and the multi-metric branch of
`aggregateGroup` (which emits exactly one record) — stamp the output with
the group's minimum timestamp on top and with `count`, `minTimestamp` and
`maxTimestamp` metadata equal to the group's size, minimum and maximum
timestamps. -/
theorem aggregated_summary_stats (ext : Externals)
    (group : List QueryResult) (cfg : AggregationConfig) (value : Value)
    (func : String) (gb : Option (List GroupByItem)) (hne : group ≠ []) :
    (∀ res, DataAggregator.createAggregatedResult group value func =
      Except.ok res → summaryStats res group) ∧
    (∀ res, DataAggregator.createAggregatedResultWithGrouping ext group
      value func gb = Except.ok res → summaryStats res group) ∧
    (∀ ms out, cfg.metrics = some ms → ms ≠ [] →
      DataAggregator.aggregateGroup ext group cfg = Except.ok out →
      ∃ res, out = [res] ∧ summaryStats res group) := by
  match group, hne with
  | first :: rest, _ =>
    have hts : (first :: rest).map (fun g => g.timestamp) ≠ [] := by simp
    obtain ⟨hmin_mem, hmin_le⟩ := listMinI_spec _ hts
    obtain ⟨hmax_mem, hmax_ge⟩ := listMaxI_spec _ hts
    refine ⟨?_, ?_, ?_⟩
    · intro res h
      simp only [DataAggregator.createAggregatedResult,
        Except.ok.injEq] at h
      subst h
      refine ⟨⟨hmin_mem, hmin_le⟩, ?_, ⟨_, ?_, hmin_mem, hmin_le⟩,
        ⟨_, ?_, hmax_mem, hmax_ge⟩⟩
      · show getKey (mergeMaps _ _) _ = _
        simp only [mergeMaps_cons, mergeMaps_nil]
        rw [getKey_setKey_ne _ _ _ _ (by decide),
          getKey_setKey_ne _ _ _ _ (by decide), getKey_setKey_self]
      · show getKey (mergeMaps _ _) _ = _
        simp only [mergeMaps_cons, mergeMaps_nil]
        rw [getKey_setKey_ne _ _ _ _ (by decide), getKey_setKey_self]
      · show getKey (mergeMaps _ _) _ = _
        simp only [mergeMaps_cons, mergeMaps_nil]
        rw [getKey_setKey_self]
    · intro res h
      simp only [DataAggregator.createAggregatedResultWithGrouping,
        Except.ok.injEq] at h
      subst h
      refine ⟨⟨hmin_mem, hmin_le⟩, ?_, ⟨_, ?_, hmin_mem, hmin_le⟩,
        ⟨_, ?_, hmax_mem, hmax_ge⟩⟩
      · show getKey (mergeMaps _ _) _ = _
        simp only [mergeMaps_cons, mergeMaps_nil]
        rw [getKey_setKey_ne _ _ _ _ (by decide),
          getKey_setKey_ne _ _ _ _ (by decide), getKey_setKey_self]
      · show getKey (mergeMaps _ _) _ = _
        simp only [mergeMaps_cons, mergeMaps_nil]
        rw [getKey_setKey_ne _ _ _ _ (by decide), getKey_setKey_self]
      · show getKey (mergeMaps _ _) _ = _
        simp only [mergeMaps_cons, mergeMaps_nil]
        rw [getKey_setKey_self]
    · intro ms out hms hmsne hok
      have hmse : ms.isEmpty = false := by
        cases ms with
        | nil => exact absurd rfl hmsne
        | cons a l => rfl
      rw [DataAggregator.aggregateGroup, hms] at hok
      simp only [hmse, Bool.false_eq_true, if_false] at hok
      cases hfold : ms.foldlM
          (DataAggregator.metricStep ext (first :: rest) cfg) [] with
      | error e => rw [hfold] at hok; exact absurd hok (by simp)
      | ok mv =>
        rw [hfold] at hok
        simp only [Except.ok.injEq] at hok
        refine ⟨_, hok.symm, ⟨hmin_mem, hmin_le⟩, ?_,
          ⟨_, ?_, hmin_mem, hmin_le⟩, ⟨_, ?_, hmax_mem, hmax_ge⟩⟩
        · show getKey (mergeMaps _ _) _ = _
          simp only [mergeMaps_cons, mergeMaps_nil]
          rw [getKey_setKey_ne _ _ _ _ (by decide),
            getKey_setKey_ne _ _ _ _ (by decide), getKey_setKey_self]
        · show getKey (mergeMaps _ _) _ = _
          simp only [mergeMaps_cons, mergeMaps_nil]
          rw [getKey_setKey_ne _ _ _ _ (by decide), getKey_setKey_self]
        · show getKey (mergeMaps _ _) _ = _
          simp only [mergeMaps_cons, mergeMaps_nil]
          rw [getKey_setKey_self]

/-- C10 witness: the global-path builder on the two-record group with
timestamps 1 and 5 produces the record `aggResW`, which carries minimum
timestamp 1, count 2 and min/max timestamps 1 and 5. -/
theorem aggregated_summary_stats_witness :
    ([recNum3, recStrAbc] ≠ ([] : List QueryResult)) ∧
    DataAggregator.createAggregatedResult [recNum3, recStrAbc] (.num 7)
      ("sum") = Except.ok aggResW ∧
    summaryStats aggResW [recNum3, recStrAbc] :=
  ⟨by simp, by rfl,
    (aggregated_summary_stats ext0 [recNum3, recStrAbc]
      {} (.num 7) ("sum") none (by simp)).1 aggResW (by rfl)⟩

theorem hasKeyB_iff_mem_keys {α : Type} (m : List (String × α))
    (k : String) : hasKeyB m k = true ↔ k ∈ m.map Prod.fst := by
  simp only [hasKeyB, List.any_eq_true, List.mem_map, decide_eq_true_eq]

theorem bucketInsert_keys (bs : List (String × List QueryResult))
    (k : String) (item : QueryResult) :
    (DataAggregator.bucketInsert bs k item).map Prod.fst =
      if k ∈ bs.map Prod.fst then bs.map Prod.fst
      else bs.map Prod.fst ++ [k] := by
  unfold DataAggregator.bucketInsert
  by_cases hk : k ∈ bs.map Prod.fst
  · rw [if_pos ((hasKeyB_iff_mem_keys bs k).mpr hk), if_pos hk]
    rw [List.map_map]
    apply List.map_congr_left
    intro b _
    by_cases hb : b.1 = k <;> simp [hb]
  · rw [if_neg (fun hc => hk ((hasKeyB_iff_mem_keys bs k).mp hc)),
      if_neg hk]
    simp

theorem buildBuckets_keys_general (ext : Externals)
    (gbs : List GroupByItem) (data : List QueryResult) :
    ∀ acc : List (String × List QueryResult),
      (data.foldl (fun a item => DataAggregator.bucketInsert a
        (DataAggregator.generateGroupKey ext item gbs) item) acc).map
          Prod.fst =
        firstSeen (acc.map Prod.fst)
          (data.map (fun r => DataAggregator.generateGroupKey ext r gbs)) := by
  induction data with
  | nil => intro acc; rfl
  | cons r ds ih =>
    intro acc
    simp only [List.foldl_cons, List.map_cons, firstSeen]
    rw [show (ds.map (fun r => DataAggregator.generateGroupKey ext r
        gbs)).foldl (fun acc k => if k ∈ acc then acc else acc ++ [k])
        ((if DataAggregator.generateGroupKey ext r gbs ∈ acc.map Prod.fst
          then acc.map Prod.fst else acc.map Prod.fst ++
            [DataAggregator.generateGroupKey ext r gbs])) =
      firstSeen ((DataAggregator.bucketInsert acc
        (DataAggregator.generateGroupKey ext r gbs) r).map Prod.fst)
        (ds.map (fun r => DataAggregator.generateGroupKey ext r gbs))
      from by rw [firstSeen, bucketInsert_keys]]
    exact ih _

/-- Bucket keys of `buildBuckets` are exactly the first-seen-order
deduplication of the record key sequence. -/
theorem buildBuckets_keys (ext : Externals) (data : List QueryResult)
    (gbs : List GroupByItem) :
    (DataAggregator.buildBuckets ext data gbs).map Prod.fst =
      firstSeen []
        (data.map (fun r => DataAggregator.generateGroupKey ext r gbs)) :=
  buildBuckets_keys_general ext gbs data []

theorem bucketInsert_cases (bs : List (String × List QueryResult))
    (k : String) (item : QueryResult) (b : String × List QueryResult)
    (hb : b ∈ DataAggregator.bucketInsert bs k item) :
    (b ∈ bs) ∨ (∃ b0 ∈ bs, b0.1 = k ∧ b = (b0.1, b0.2 ++ [item])) ∨
      b = (k, [item]) := by
  unfold DataAggregator.bucketInsert at hb
  by_cases hk : hasKeyB bs k = true
  · rw [if_pos hk] at hb
    obtain ⟨b0, hb0, he⟩ := List.mem_map.mp hb
    by_cases h0 : b0.1 = k
    · rw [if_pos h0] at he
      exact Or.inr (Or.inl ⟨b0, hb0, h0, by rw [← he, h0]⟩)
    · rw [if_neg h0] at he
      exact Or.inl (he ▸ hb0)
  · rw [if_neg hk] at hb
    rcases List.mem_append.mp hb with h | h
    · exact Or.inl h
    · exact Or.inr (Or.inr (List.mem_singleton.mp h))

theorem bucketInsert_self_mem (bs : List (String × List QueryResult))
    (k : String) (item : QueryResult) :
    ∃ grp, (k, grp) ∈ DataAggregator.bucketInsert bs k item ∧
      item ∈ grp := by
  unfold DataAggregator.bucketInsert
  by_cases hk : hasKeyB bs k = true
  · rw [if_pos hk]
    obtain ⟨b0, hb0, he⟩ := List.any_eq_true.mp hk
    have h0 : b0.1 = k := by simpa using he
    refine ⟨b0.2 ++ [item], ?_, by simp⟩
    refine List.mem_map.mpr ⟨b0, hb0, ?_⟩
    rw [if_pos h0, h0]
  · rw [if_neg hk]
    exact ⟨[item], by simp, by simp⟩

theorem bucketInsert_mono (bs : List (String × List QueryResult))
    (k : String) (item : QueryResult) (k0 : String)
    (grp0 : List QueryResult) (h : (k0, grp0) ∈ bs) :
    ∃ grp, (k0, grp) ∈ DataAggregator.bucketInsert bs k item ∧
      grp0 ⊆ grp := by
  unfold DataAggregator.bucketInsert
  by_cases hk : hasKeyB bs k = true
  · rw [if_pos hk]
    by_cases h0 : k0 = k
    · refine ⟨grp0 ++ [item], ?_, List.subset_append_left _ _⟩
      refine List.mem_map.mpr ⟨(k0, grp0), h, ?_⟩
      simp [h0]
    · refine ⟨grp0, ?_, List.Subset.refl _⟩
      refine List.mem_map.mpr ⟨(k0, grp0), h, ?_⟩
      simp [h0]
  · rw [if_neg hk]
    exact ⟨grp0, List.mem_append_left _ h, List.Subset.refl _⟩

theorem buildBuckets_key_correct_general (key : QueryResult → String)
    (data : List QueryResult) :
    ∀ acc : List (String × List QueryResult),
      (∀ b ∈ acc, ∀ r ∈ b.2, key r = b.1) →
      ∀ b ∈ data.foldl
        (fun a item => DataAggregator.bucketInsert a (key item) item) acc,
        ∀ r ∈ b.2, key r = b.1 := by
  induction data with
  | nil => exact fun acc hacc => hacc
  | cons d ds ih =>
    intro acc hacc
    simp only [List.foldl_cons]
    apply ih
    intro b hb r hr
    rcases bucketInsert_cases acc (key d) d b hb with h | ⟨b0, hb0, h0, he⟩
      | he
    · exact hacc b h r hr
    · subst he
      rcases List.mem_append.mp hr with h | h
      · exact hacc b0 hb0 r h
      · rw [List.mem_singleton.mp h, h0]
    · subst he
      rw [List.mem_singleton.mp hr]

theorem buildBuckets_record_mem_general (key : QueryResult → String)
    (data : List QueryResult) :
    ∀ (acc : List (String × List QueryResult)) (r : QueryResult),
      ((∃ grp, (key r, grp) ∈ acc ∧ r ∈ grp) ∨ r ∈ data) →
      ∃ grp, (key r, grp) ∈ data.foldl
        (fun a item => DataAggregator.bucketInsert a (key item) item) acc ∧
        r ∈ grp := by
  induction data with
  | nil =>
    rintro acc r (⟨grp, hg, hr⟩ | h)
    · exact ⟨grp, hg, hr⟩
    · cases h
  | cons d ds ih =>
    rintro acc r (⟨grp, hg, hr⟩ | hmem)
    · obtain ⟨grp2, hg2, hsub⟩ :=
        bucketInsert_mono acc (key d) d (key r) grp hg
      exact ih _ r (Or.inl ⟨grp2, hg2, hsub hr⟩)
    · rcases List.mem_cons.mp hmem with rfl | hmem
      · obtain ⟨grp, hg, hr⟩ := bucketInsert_self_mem acc (key r) r
        exact ih _ r (Or.inl ⟨grp, hg, hr⟩)
      · exact ih _ r (Or.inr hmem)

theorem buildBuckets_keys_nodup_general (key : QueryResult → String)
    (data : List QueryResult) :
    ∀ acc : List (String × List QueryResult),
      (acc.map Prod.fst).Nodup →
      ((data.foldl (fun a item => DataAggregator.bucketInsert a (key item)
        item) acc).map Prod.fst).Nodup := by
  induction data with
  | nil => exact fun acc hacc => hacc
  | cons d ds ih =>
    intro acc hacc
    simp only [List.foldl_cons]
    apply ih
    rw [show (DataAggregator.bucketInsert acc (key d) d).map Prod.fst =
      if key d ∈ acc.map Prod.fst then acc.map Prod.fst
      else acc.map Prod.fst ++ [key d] from by
        unfold DataAggregator.bucketInsert
        by_cases hk : key d ∈ acc.map Prod.fst
        · rw [if_pos ((hasKeyB_iff_mem_keys acc (key d)).mpr hk), if_pos hk,
            List.map_map]
          apply List.map_congr_left
          intro b _
          by_cases hb : b.1 = key d <;> simp [hb]
        · rw [if_neg (fun hc => hk ((hasKeyB_iff_mem_keys acc
            (key d)).mp hc)), if_neg hk]
          simp]
    by_cases hk : key d ∈ acc.map Prod.fst
    · rwa [if_pos hk]
    · rw [if_neg hk]
      simp [List.nodup_append, hacc, hk]

theorem key_bucket_unique (bs : List (String × List QueryResult))
    (hnd : (bs.map Prod.fst).Nodup) (k : String)
    (grp1 grp2 : List QueryResult) (h1 : (k, grp1) ∈ bs)
    (h2 : (k, grp2) ∈ bs) : grp1 = grp2 := by
  induction bs with
  | nil => cases h1
  | cons b rest ih =>
    simp only [List.map_cons, List.nodup_cons] at hnd
    rcases List.mem_cons.mp h1 with he1 | h1 <;>
      rcases List.mem_cons.mp h2 with he2 | h2
    · rw [← he1] at he2
      exact (Prod.mk.injEq _ _ _ _).mp he2.symm |>.2
    · exact absurd (List.mem_map.mpr ⟨(k, grp2), h2, by rw [← he1]⟩) hnd.1
    · exact absurd (List.mem_map.mpr ⟨(k, grp1), h1, by rw [← he2]⟩) hnd.1
    · exact ih hnd.2 h1 h2

theorem aggregateGroup_singleton (ext : Externals)
    (cfg : AggregationConfig) (g : List QueryResult) (f : String)
    (hm : cfg.metrics = none) (hf : cfg.function = some f) (hfne : f ≠ "")
    (l : List QueryResult)
    (h : DataAggregator.aggregateGroup ext g cfg = Except.ok l) :
    l.length = 1 := by
  unfold DataAggregator.aggregateGroup at h
  rw [hm] at h
  dsimp only at h
  unfold DataAggregator.aggregateGroupNoMetrics at h
  rw [hf] at h
  dsimp only at h
  rw [if_neg hfne] at h
  cases h1 : DataAggregator.applyFunction g f cfg.percentile with
  | error e => rw [h1] at h; cases h
  | ok v =>
    rw [h1] at h
    dsimp only at h
    cases h2 : DataAggregator.createAggregatedResultWithGrouping ext g v f
        cfg.groupBy with
    | error e => rw [h2] at h; cases h
    | ok res =>
      rw [h2] at h
      cases h
      rfl

theorem groupAndAggregate_foldlM_length (ext : Externals)
    (cfg : AggregationConfig) (bs : List (String × List QueryResult))
    (hsingle : ∀ b ∈ bs, ∀ l,
      DataAggregator.aggregateGroup ext b.2 cfg = Except.ok l →
      l.length = 1) :
    ∀ (acc out : List QueryResult),
      bs.foldlM (fun acc b =>
        match DataAggregator.aggregateGroup ext b.2 cfg with
        | .error e => .error e
        | .ok aggregated => .ok (acc ++ aggregated)) acc =
          Except.ok out →
      out.length = acc.length + bs.length := by
  induction bs with
  | nil =>
    intro acc out h
    simp only [List.foldlM_nil] at h
    cases h
    simp
  | cons b rest ih =>
    intro acc out h
    rw [List.foldlM_cons] at h
    cases hagg : DataAggregator.aggregateGroup ext b.2 cfg with
    | error e =>
      rw [hagg] at h
      have h' : (Except.error e : Except String (List QueryResult)) =
          Except.ok out := h
      cases h'
    | ok l =>
      rw [hagg] at h
      have hbind : (match Except.ok l with
          | Except.error e => Except.error e
          | Except.ok aggregated =>
            Except.ok (acc ++ aggregated) : Except String _) >>=
            (fun b' => rest.foldlM (fun acc b =>
              match DataAggregator.aggregateGroup ext b.2 cfg with
              | .error e => .error e
              | .ok aggregated => .ok (acc ++ aggregated)) b') =
          rest.foldlM (fun acc b =>
            match DataAggregator.aggregateGroup ext b.2 cfg with
            | .error e => .error e
            | .ok aggregated => .ok (acc ++ aggregated)) (acc ++ l) := rfl
      rw [hbind] at h
      have hlen := hsingle b (List.mem_cons_self _ _) l hagg
      have := ih (fun b hb => hsingle b (List.mem_cons_of_mem _ hb))
        (acc ++ l) out h
      rw [this, List.length_append, hlen, List.length_cons]
      omega

/-- C9: under grouped aggregation with a nonempty `groupBy`, no metrics
list and a recognized function, two input records lie in a common bucket
exactly when their generated group keys are character-identical strings;
the bucket keys are the first-seen-order deduplication of the record key
sequence; and the successful output has exactly one aggregated record per
bucket, in that key order. -/
theorem grouped_aggregation_spec (ext : Externals)
    (data : List QueryResult) (cfg : AggregationConfig)
    (gbs : List GroupByItem) (f : String) (out : List QueryResult)
    (hgb : cfg.groupBy = some gbs) (hgbne : gbs ≠ [])
    (hm : cfg.metrics = none) (hf : cfg.function = some f) (hfne : f ≠ "")
    (hout : DataAggregator.aggregate ext data (some cfg) = Except.ok out) :
    (∀ r1 r2, r1 ∈ data → r2 ∈ data →
      (inSameBucket (DataAggregator.buildBuckets ext data gbs) r1 r2 ↔
        DataAggregator.generateGroupKey ext r1 gbs =
          DataAggregator.generateGroupKey ext r2 gbs)) ∧
    (DataAggregator.buildBuckets ext data gbs).map Prod.fst =
      firstSeen []
        (data.map (fun r => DataAggregator.generateGroupKey ext r gbs)) ∧
    out.length =
      ((DataAggregator.buildBuckets ext data gbs).map Prod.fst).length := by
  have hkc : ∀ b ∈ DataAggregator.buildBuckets ext data gbs, ∀ r ∈ b.2,
      DataAggregator.generateGroupKey ext r gbs = b.1 :=
    buildBuckets_key_correct_general
      (fun r => DataAggregator.generateGroupKey ext r gbs) data []
      (by simp)
  have hnd : ((DataAggregator.buildBuckets ext data gbs).map
      Prod.fst).Nodup :=
    buildBuckets_keys_nodup_general
      (fun r => DataAggregator.generateGroupKey ext r gbs) data []
      (by simp)
  refine ⟨?_, buildBuckets_keys ext data gbs, ?_⟩
  · intro r1 r2 h1 h2
    constructor
    · rintro ⟨b, hb, hr1, hr2⟩
      rw [hkc b hb r1 hr1, hkc b hb r2 hr2]
    · intro hkeq
      obtain ⟨grp1, hg1, hm1⟩ := buildBuckets_record_mem_general
        (fun r => DataAggregator.generateGroupKey ext r gbs) data []
        r1 (Or.inr h1)
      obtain ⟨grp2, hg2, hm2⟩ := buildBuckets_record_mem_general
        (fun r => DataAggregator.generateGroupKey ext r gbs) data []
        r2 (Or.inr h2)
      rw [← hkeq] at hg2
      have := key_bucket_unique _ hnd _ _ _ hg1 hg2
      subst this
      exact ⟨(DataAggregator.generateGroupKey ext r1 gbs, grp1), hg1,
        hm1, hm2⟩
  · have hgbne' : gbs.length > 0 := List.length_pos.mpr hgbne
    unfold DataAggregator.aggregate at hout
    dsimp only at hout
    rw [hgb] at hout
    dsimp only at hout
    rw [if_pos hgbne'] at hout
    unfold DataAggregator.groupAndAggregate at hout
    rw [hgb] at hout
    have hsingle : ∀ b ∈ DataAggregator.buildBuckets ext data gbs, ∀ l,
        DataAggregator.aggregateGroup ext b.2 cfg = Except.ok l →
        l.length = 1 :=
      fun b _ l h => aggregateGroup_singleton ext cfg b.2 f hm hf hfne l h
    have := groupAndAggregate_foldlM_length ext cfg
      (DataAggregator.buildBuckets ext data gbs) hsingle [] out
      (by simpa using hout)
    simpa using this

/-- C9 witness: grouped sum over three records in two service groups
produces exactly one record per distinct key. -/
theorem grouped_aggregation_spec_witness :
    (cfgGroupSum.groupBy = some [GroupByItem.fieldName ("service")] ∧
      cfgGroupSum.metrics = none ∧ cfgGroupSum.function = some ("sum") ∧
      DataAggregator.aggregate ext0 dataC9 (some cfgGroupSum) =
        Except.ok outC9) ∧
    outC9.length = ((DataAggregator.buildBuckets ext0 dataC9
      [GroupByItem.fieldName ("service")]).map Prod.fst).length := by
  refine ⟨⟨rfl, rfl, rfl, by rfl⟩, ?_⟩
  exact (grouped_aggregation_spec ext0 dataC9 cfgGroupSum
    [GroupByItem.fieldName ("service")] ("sum") outC9 rfl (by simp) rfl rfl
    (by simp) (by rfl)).2.2

end LokiExtractor
